import Mathlib

/-!
Shallow embedding of the `jasonsoft/log` structured-logging core
(`log.go`, `entry.go`) and proofs of its specified properties.

Modelling conventions:
* Go `interface{}` field values become the inductive `Value`; `float32`/
  `float64` values are carried as their IEEE-754 bit patterns so that
  equality stays decidable.
* A Go `map[string]interface{}` (`Fields`) becomes an association list
  `List (String × Value)`; a Go map literal always has distinct keys, which
  the predicate `Fields.WF` captures.
* Go `time.Time` / `time.Duration` become `Int` (nanoseconds); every call to
  `time.Now()` inside the dispatch loop is modelled by an explicit clock
  stream `clock : Nat → Int` giving the instant observed at the i-th read.
* A handler is identified by a `HandlerId : Nat`; its external `Log`
  behaviour is an environment `beh : HandlerId → Entry → Option String`
  (`none` = success, `some err` = the error's rendered text), and dispatch
  returns the trace of invocations plus the fallback-sink lines instead of
  performing I/O.
* Go `error` values are modelled by their rendered string (the `%+v` text).
-/

/-- A field value (`interface{}` in the source, restricted to the scalar
kinds the package's typed helpers produce plus strings/bools). Floats are
carried as raw IEEE-754 bits. -/
inductive Value where
  | vStr (s : String)
  | vBool (b : Bool)
  | vInt (n : Int)
  | vFloat32 (bits : UInt32)
  | vFloat64 (bits : UInt64)
  deriving DecidableEq, Repr

/-- `Fields` represents a map of entry level data used for structured
logging (`map[string]interface{}` in the source), modelled as an
association list. -/
abbrev Fields := List (String × Value)

/-- Alias for `Fields` usable inside the `Entry` namespace, where the
accessor of the entry's `Fields` attribute shadows the type name. -/
abbrev FieldMap := Fields

/-- Go-map well-formedness: keys are pairwise distinct within one layer. -/
def Fields.WF (f : Fields) : Prop := (f.map Prod.fst).Nodup

instance (f : Fields) : Decidable f.WF := by
  unfold Fields.WF; infer_instance

/-- `Get` returns the field value stored under `name` (`f[name]` on the Go
map; a missing key is `none`). -/
def Fields.Get (f : Fields) (name : String) : Option Value :=
  (f.find? (fun p => p.1 == name)).map Prod.snd

/-- Map assignment `f[k] = v`: any previous binding of `k` is replaced. -/
def Fields.set (f : Fields) (k : String) (v : Value) : Fields :=
  f.filter (fun p => p.1 != k) ++ [(k, v)]

/-- `Names` returns the field names sorted (the Go map has no order). -/
def Fields.Names (f : Fields) : List String :=
  (f.map Prod.fst).mergeSort (fun a b => a ≤ b)

/-- Modelled from the spec: the `Level` enumeration lives in a source file
that is not part of `src/` (`log.go`/`entry.go` only use its constants).
The spec describes it as an ordered enumeration backed by an integer type,
so we model `Level` as `Nat` with the six defined constants below. -/
abbrev Level := Nat

/-- Modelled from the spec: Debug severity, the lowest level. -/
def DebugLevel : Level := 0

/-- Modelled from the spec: Info severity. -/
def InfoLevel : Level := 1

/-- Modelled from the spec: Warn severity. -/
def WarnLevel : Level := 2

/-- Modelled from the spec: Error severity. -/
def ErrorLevel : Level := 3

/-- Modelled from the spec: Panic severity. -/
def PanicLevel : Level := 4

/-- Modelled from the spec: Fatal severity, the highest level. -/
def FatalLevel : Level := 5

/-- Modelled from the spec: the fixed "all levels" grouping. -/
def AllLevels : List Level :=
  [DebugLevel, InfoLevel, WarnLevel, ErrorLevel, PanicLevel, FatalLevel]

/-- Handlers are external collaborators; the registry stores them by
identity, which we model as a numeric id. -/
abbrev HandlerId := Nat

/-- The closure built by `getLeveledHandlers`: it captures the six per-level
handler lists at build time (the cached level snapshot). -/
structure Snapshot where
  debugHandlers : List HandlerId
  infoHandlers : List HandlerId
  warnHandlers : List HandlerId
  errorHandlers : List HandlerId
  panicHandlers : List HandlerId
  fatalHandlers : List HandlerId

/-- The switch inside the closure returned by `getLeveledHandlers`: six
cases for the six defined levels, every other level falls through to the
empty list. -/
def Snapshot.lookup (s : Snapshot) (level : Level) : List HandlerId :=
  if level = DebugLevel then s.debugHandlers
  else if level = InfoLevel then s.infoHandlers
  else if level = WarnLevel then s.warnHandlers
  else if level = ErrorLevel then s.errorHandlers
  else if level = PanicLevel then s.panicHandlers
  else if level = FatalLevel then s.fatalHandlers
  else []

/-- `getLeveledHandlers` reads the six defined levels out of the
`leveledHandlers` map (a missing key yields the empty list, as for a Go
map) and captures them in a snapshot. -/
def getLeveledHandlers (m : Level → List HandlerId) : Snapshot :=
  { debugHandlers := m DebugLevel
    infoHandlers := m InfoLevel
    warnHandlers := m WarnLevel
    errorHandlers := m ErrorLevel
    panicHandlers := m PanicLevel
    fatalHandlers := m FatalLevel }

/-- The `logger` struct: the flat registration-order handler list, the
level→handlers map (total function, empty list for absent keys, like a Go
map of slices), the cached snapshot, and the default-fields layers. The
`sync.RWMutex` has no purely functional content and is omitted. -/
structure Logger where
  handles : List HandlerId
  leveledHandlers : Level → List HandlerId
  cacheLeveledHandlers : Snapshot
  defaultFields : List Fields

/-- `new()`: empty registry with the snapshot built from the empty map. -/
def Logger.new : Logger :=
  { handles := []
    leveledHandlers := fun _ => []
    cacheLeveledHandlers := getLeveledHandlers (fun _ => [])
    defaultFields := [] }

/-- `RegisterHandler`: append the handler to each named level's list and to
the flat list, then rebuild the cached snapshot. -/
def RegisterHandler (l : Logger) (h : HandlerId) (levels : List Level) : Logger :=
  let m := levels.foldl
    (fun m lv => fun x => if x = lv then m x ++ [h] else m x)
    l.leveledHandlers
  { l with
    leveledHandlers := m
    handles := l.handles ++ [h]
    cacheLeveledHandlers := getLeveledHandlers m }

/-- `WithDefaultFields`: build a fresh slice holding the old layers plus the
new one and install it (the old slice is left intact, so entries that
captured it are unaffected). -/
def WithDefaultFields (l : Logger) (fields : Fields) : Logger :=
  { l with defaultFields := l.defaultFields ++ [fields] }

/-- A single log entry: the private logger pointer, trace start time and
field chain, plus the four handler-visible attributes. -/
structure Entry where
  logger : Logger
  start : Int
  fields : List Fields
  Level : Level
  Message : String
  Timestamp : Int
  Fields : Fields

/-- `newEntry`: zero-valued entry bound to the logger, seeded with the
logger's current default-fields slice as its chain. -/
def newEntry (l : Logger) : Entry :=
  { logger := l
    start := 0
    fields := l.defaultFields
    Level := 0
    Message := ""
    Timestamp := 0
    Fields := [] }

/-- `WithFields`: build a fresh chain holding the old layers plus the new
one (copy-on-append) and return the entry with that chain installed. -/
def Entry.WithFields (e : Entry) (fields : FieldMap) : Entry :=
  { e with fields := e.fields ++ [fields] }

/-- `WithField` returns a new entry with the `key` and `value` set. -/
def Entry.WithField (e : Entry) (key : String) (value : Value) : Entry :=
  e.WithFields [(key, value)]

/-- `Str` add string field to current entry. -/
def Entry.Str (e : Entry) (key : String) (val : String) : Entry :=
  e.WithFields [(key, Value.vStr val)]

/-- `Bool` add bool field to current entry. -/
def Entry.Bool (e : Entry) (key : String) (val : Bool) : Entry :=
  e.WithFields [(key, Value.vBool val)]

/-- `Int` add int field to current entry (all the signed/unsigned Go widths
`int8 … uint64` are carried as mathematical integers). -/
def Entry.Int (e : Entry) (key : String) (val : ℤ) : Entry :=
  e.WithFields [(key, Value.vInt val)]

/-- `Int8` add int8 field to current entry. -/
def Entry.Int8 (e : Entry) (key : String) (val : ℤ) : Entry :=
  e.WithFields [(key, Value.vInt val)]

/-- `Int16` add int16 field to current entry. -/
def Entry.Int16 (e : Entry) (key : String) (val : ℤ) : Entry :=
  e.WithFields [(key, Value.vInt val)]

/-- `Int32` add int32 field to current entry. -/
def Entry.Int32 (e : Entry) (key : String) (val : ℤ) : Entry :=
  e.WithFields [(key, Value.vInt val)]

/-- `Int64` add int64 field to current entry. -/
def Entry.Int64 (e : Entry) (key : String) (val : ℤ) : Entry :=
  e.WithFields [(key, Value.vInt val)]

/-- `Uint` add uint field to current entry. -/
def Entry.Uint (e : Entry) (key : String) (val : ℤ) : Entry :=
  e.WithFields [(key, Value.vInt val)]

/-- `Uint8` add uint8 field to current entry. -/
def Entry.Uint8 (e : Entry) (key : String) (val : ℤ) : Entry :=
  e.WithFields [(key, Value.vInt val)]

/-- `Uint16` add uint16 field to current entry. -/
def Entry.Uint16 (e : Entry) (key : String) (val : ℤ) : Entry :=
  e.WithFields [(key, Value.vInt val)]

/-- `Uint32` add uint32 field to current entry. -/
def Entry.Uint32 (e : Entry) (key : String) (val : ℤ) : Entry :=
  e.WithFields [(key, Value.vInt val)]

/-- `Uint64` add uint64 field to current entry. -/
def Entry.Uint64 (e : Entry) (key : String) (val : ℤ) : Entry :=
  e.WithFields [(key, Value.vInt val)]

/-- `Float32` add float32 field to current entry (IEEE bits). -/
def Entry.Float32 (e : Entry) (key : String) (val : UInt32) : Entry :=
  e.WithFields [(key, Value.vFloat32 val)]

/-- `Float64` add float64 field to current entry (IEEE bits). -/
def Entry.Float64 (e : Entry) (key : String) (val : UInt64) : Entry :=
  e.WithFields [(key, Value.vFloat64 val)]

/-- `WithError`: a nil error returns the entry unchanged; otherwise the
field "error" is set to the error's rendered text (`%+v`). A Go `error` is
modelled by that rendered text. -/
def Entry.WithError (e : Entry) (err : Option String) : Entry :=
  match err with
  | none => e
  | some s => e.WithField "error" (Value.vStr s)

/-- One step of the inner loop of `mergedFields`: copy every binding of
`layer` into the accumulator map. -/
def mergeLayer (acc : Fields) (layer : Fields) : Fields :=
  layer.foldl (fun a p => a.set p.1 p.2) acc

/-- `mergedFields` returns the fields list collapsed into a single map:
layers are copied in chain order into a fresh accumulator, so later layers
overwrite earlier ones on key collision. -/
def Entry.mergedFields (e : Entry) : FieldMap :=
  e.fields.foldl mergeLayer []

/-- `time.Minute * 60 * 24` in nanoseconds. -/
def day : Int := 86400000000000

/-- `365 * day`. -/
def year : Int := 365 * day

/-- `duration`: durations under a day use the standard-library rendering
(`time.Duration.String`, passed in as `fmtD` since it is Go-stdlib code
external to this package); otherwise years (only when the duration reaches
a year) and days are peeled off by integer division and the sub-day
remainder is appended with the standard rendering. -/
def duration (fmtD : Int → String) (d : Int) : String :=
  if d < day then fmtD d
  else
    let yPart : String × Int :=
      if year ≤ d then (toString (d / year) ++ "y", d - d / year * year)
      else ("", d)
    let days := yPart.2 / day
    let rest := yPart.2 - days * day
    yPart.1 ++ toString days ++ "d" ++ fmtD rest

/-- `Trace` records the message and the start instant (`time.Now()`, passed
in as `now`) without dispatching. -/
def Entry.Trace (e : Entry) (msg : String) (now : ℤ) : Entry :=
  { e with Message := msg, start := now }

/-- The observable outcome of one dispatch: the `(handler id, entry)` pairs
passed to `Log`, in invocation order, and the lines written to the fallback
diagnostic sink (`stdlog.Printf`). -/
structure DispatchResult where
  calls : List (HandlerId × Entry)
  sink : List String

/-- The two assignments at the top of the loop body of `handler`: set the
entry's timestamp to the given instant and recompute the merged fields. -/
def stamp (e : Entry) (t : Int) : Entry :=
  { e with Timestamp := t, Fields := e.mergedFields }

/-- The loop of `handler`: for each resolved handler stamp the entry with
the next clock instant and the freshly merged fields, invoke `Log`
(recording the call unconditionally), and append a diagnostic line to the
fallback sink exactly when `Log` failed, then continue with the next
handler. `i` counts the clock reads already made. -/
def dispatchLoop (beh : HandlerId → Entry → Option String) (clock : Nat → Int) :
    Entry → List HandlerId → Nat → DispatchResult
  | _, [], _ => ⟨[], []⟩
  | e, h :: rest, i =>
    { calls := (h, stamp e (clock i))
        :: (dispatchLoop beh clock (stamp e (clock i)) rest (i + 1)).calls
      sink :=
        match beh h (stamp e (clock i)) with
        | none => (dispatchLoop beh clock (stamp e (clock i)) rest (i + 1)).sink
        | some err =>
          ("log: log failed: " ++ err)
            :: (dispatchLoop beh clock (stamp e (clock i)) rest (i + 1)).sink }

/-- `handler`: resolve the handler list for the entry's level from the
cached snapshot and run the dispatch loop over it. -/
def handler (beh : HandlerId → Entry → Option String) (clock : Nat → Int)
    (e : Entry) : DispatchResult :=
  dispatchLoop beh clock e (e.logger.cacheLeveledHandlers.lookup e.Level) 0

/-- `Debug` level message. -/
def Entry.Debug (e : Entry) (msg : String) (beh : HandlerId → Entry → Option String)
    (clock : Nat → ℤ) : DispatchResult :=
  handler beh clock { e with Level := DebugLevel, Message := msg }

/-- `Info` level message. -/
def Entry.Info (e : Entry) (msg : String) (beh : HandlerId → Entry → Option String)
    (clock : Nat → ℤ) : DispatchResult :=
  handler beh clock { e with Level := InfoLevel, Message := msg }

/-- `Warn` level message. -/
def Entry.Warn (e : Entry) (msg : String) (beh : HandlerId → Entry → Option String)
    (clock : Nat → ℤ) : DispatchResult :=
  handler beh clock { e with Level := WarnLevel, Message := msg }

/-- `Error` level message. -/
def Entry.Error (e : Entry) (msg : String) (beh : HandlerId → Entry → Option String)
    (clock : Nat → ℤ) : DispatchResult :=
  handler beh clock { e with Level := ErrorLevel, Message := msg }

/-- `Panic` level message; the `os.Exit(1)` that follows dispatch is a
process effect outside the model. -/
def Entry.Panic (e : Entry) (msg : String) (beh : HandlerId → Entry → Option String)
    (clock : Nat → ℤ) : DispatchResult :=
  handler beh clock { e with Level := PanicLevel, Message := msg }

/-- `Fatal` level message; the `os.Exit(1)` that follows dispatch is a
process effect outside the model. -/
def Entry.Fatal (e : Entry) (msg : String) (beh : HandlerId → Entry → Option String)
    (clock : Nat → ℤ) : DispatchResult :=
  handler beh clock { e with Level := FatalLevel, Message := msg }

/-- `Stop` fires the completion message: elapsed time since `start`
(`time.Since`, the current instant passed in as `now`) is attached as the
"duration" field and the entry is dispatched at Info level with its
original message. -/
def Entry.Stop (e : Entry) (fmtD : ℤ → String)
    (beh : HandlerId → Entry → Option String) (clock : Nat → ℤ)
    (now : ℤ) : DispatchResult :=
  (e.WithField "duration" (Value.vStr (duration fmtD (now - e.start)))).Info
    e.Message beh clock

/-- The observable outcome of `Flush`: the handler ids whose flush
capability was invoked, in order, and the fallback-sink lines. -/
structure FlushResult where
  flushCalls : List HandlerId
  sink : List String

/-- The loop of `Flush` over the flat handler list. `flushCap h = none`
models a handler that is not a `Flusher`; `flushCap h = some res` models a
`Flusher` whose `Flush()` returns `res`. -/
def flushLoop (flushCap : HandlerId → Option (Option String)) :
    List HandlerId → FlushResult
  | [] => ⟨[], []⟩
  | h :: rest =>
    match flushCap h with
    | none => flushLoop flushCap rest
    | some none =>
      ⟨h :: (flushLoop flushCap rest).flushCalls, (flushLoop flushCap rest).sink⟩
    | some (some err) =>
      ⟨h :: (flushLoop flushCap rest).flushCalls,
        ("log: flush log handler: " ++ err) :: (flushLoop flushCap rest).sink⟩

/-- `Flush` clear all handler's buffer: iterate the flat list, invoke the
flush capability where present, report failures and continue. -/
def Flush (l : Logger) (flushCap : HandlerId → Option (Option String)) : FlushResult :=
  flushLoop flushCap l.handles

/-- A sequence of `RegisterHandler` calls applied to a logger. -/
def applyRegs (regs : List (HandlerId × List Level)) (l : Logger) : Logger :=
  regs.foldl (fun l r => RegisterHandler l r.1 r.2) l

/-- The value a key receives from a field chain read back-to-front: the
binding from the latest layer containing the key, if any (the spec's
"last-writer-wins" reading, used to state what `mergedFields` computes). -/
def chainLookup : List Fields → String → Option Value
  | [], _ => none
  | layer :: rest, k =>
    match chainLookup rest k with
    | some v => some v
    | none => layer.Get k

theorem Fields.Get_nil (k : String) : Fields.Get [] k = none := rfl

theorem Fields.Get_cons (p : String × Value) (f : Fields) (k : String) :
    Fields.Get (p :: f) k = if p.1 = k then some p.2 else f.Get k := by
  by_cases h : p.1 = k <;> simp [Fields.Get, List.find?_cons, h]

theorem Fields.find?_filter_ne (f : Fields) (k k' : String) (h : k' ≠ k) :
    (f.filter (fun p => p.1 != k)).find? (fun p => p.1 == k')
      = f.find? (fun p => p.1 == k') := by
  induction f with
  | nil => rfl
  | cons p rest ih =>
    by_cases hp : p.1 = k
    · subst hp
      have hne : (p.1 == k') = false := by simp [Ne.symm h]
      simp [List.filter_cons, List.find?_cons, hne, ih]
    · by_cases hk' : p.1 = k'
      · simp [List.filter_cons, List.find?_cons, hp, hk', h]
      · simp [List.filter_cons, List.find?_cons, hp, hk', ih]

theorem Fields.Get_set (f : Fields) (k : String) (v : Value) (k' : String) :
    (f.set k v).Get k' = if k' = k then some v else f.Get k' := by
  by_cases h : k' = k
  · subst h
    have hnone : (f.filter (fun p => p.1 != k')).find? (fun p => p.1 == k') = none := by
      rw [List.find?_eq_none]
      intro p hp
      have := (List.mem_filter.mp hp).2
      simpa using this
    simp [Fields.set, Fields.Get, List.find?_append, hnone]
  · have h2 : k ≠ k' := Ne.symm h
    simp [Fields.set, Fields.Get, List.find?_append,
      Fields.find?_filter_ne f k k' h, h2, h]

theorem Fields.WF_set (f : Fields) (k : String) (v : Value) (h : f.WF) :
    (f.set k v).WF := by
  unfold Fields.WF Fields.set at *
  rw [List.map_append]
  refine List.Nodup.append ?_ (by simp) ?_
  · exact List.Nodup.sublist ((List.filter_sublist f).map Prod.fst) h
  · intro a ha hb
    simp at hb
    subst hb
    obtain ⟨p, hp, rfl⟩ := List.mem_map.mp ha
    have := (List.mem_filter.mp hp).2
    simp at this

theorem Fields.Get_eq_none_iff (f : Fields) (k : String) :
    f.Get k = none ↔ ∀ p ∈ f, p.1 ≠ k := by
  simp [Fields.Get, List.find?_eq_none]

theorem mergeLayer_Get (layer : Fields) (hWF : layer.WF) (acc : Fields) (k : String) :
    (mergeLayer acc layer).Get k
      = match Fields.Get layer k with
        | some v => some v
        | none => acc.Get k := by
  induction layer generalizing acc with
  | nil => simp [mergeLayer, Fields.Get_nil]
  | cons p rest ih =>
    have hWF' := hWF
    unfold Fields.WF at hWF'
    rw [List.map_cons, List.nodup_cons] at hWF'
    obtain ⟨hnot, hnd⟩ := hWF'
    have hWFrest : Fields.WF rest := hnd
    have hnotin : ∀ q ∈ rest, q.1 ≠ p.1 := by
      intro q hq heq
      exact hnot (heq ▸ List.mem_map_of_mem Prod.fst hq)
    have step : mergeLayer acc (p :: rest) = mergeLayer (acc.set p.1 p.2) rest := rfl
    rw [step, ih hWFrest, Fields.Get_cons]
    by_cases hk : p.1 = k
    · subst hk
      have hrestnone : Fields.Get rest p.1 = none :=
        (Fields.Get_eq_none_iff rest p.1).mpr hnotin
      simp [hrestnone, Fields.Get_set]
    · cases hrest : Fields.Get rest k with
      | some v => simp [hrest, hk]
      | none => simp [hrest, hk, Fields.Get_set, Ne.symm hk]

theorem mergeLayer_WF (layer acc : Fields) (h : acc.WF) : (mergeLayer acc layer).WF := by
  induction layer generalizing acc with
  | nil => exact h
  | cons p rest ih => exact ih (acc.set p.1 p.2) (Fields.WF_set acc p.1 p.2 h)

theorem foldl_mergeLayer_Get (chain : List Fields) (hWF : ∀ f ∈ chain, f.WF)
    (acc : Fields) (k : String) :
    (chain.foldl mergeLayer acc).Get k
      = match chainLookup chain k with
        | some v => some v
        | none => acc.Get k := by
  induction chain generalizing acc with
  | nil => simp [chainLookup]
  | cons layer rest ih =>
    have hlayer : layer.WF := hWF layer (List.mem_cons_self layer rest)
    have hrest : ∀ f ∈ rest, f.WF := fun f hf => hWF f (List.mem_cons_of_mem layer hf)
    rw [List.foldl_cons, ih hrest, mergeLayer_Get layer hlayer]
    show _ = (match
        match chainLookup rest k with
        | some v => some v
        | none => Fields.Get layer k with
      | some v => some v
      | none => acc.Get k)
    cases chainLookup rest k with
    | some v => rfl
    | none => rfl

theorem foldl_mergeLayer_WF (chain : List Fields) (acc : Fields) (h : acc.WF) :
    (chain.foldl mergeLayer acc).WF := by
  induction chain generalizing acc with
  | nil => exact h
  | cons layer rest ih => exact ih (mergeLayer acc layer) (mergeLayer_WF layer acc h)

theorem Fields.set_of_not_mem (acc : Fields) (k : String) (v : Value)
    (h : ∀ q ∈ acc, q.1 ≠ k) : acc.set k v = acc ++ [(k, v)] := by
  unfold Fields.set
  rw [List.filter_eq_self.mpr]
  intro p hp
  simpa using h p hp

theorem mergeLayer_disjoint (m : Fields) (hWF : m.WF) (acc : Fields)
    (hdisj : ∀ p ∈ m, ∀ q ∈ acc, q.1 ≠ p.1) : mergeLayer acc m = acc ++ m := by
  induction m generalizing acc with
  | nil => simp [mergeLayer]
  | cons p rest ih =>
    have hWF' := hWF
    unfold Fields.WF at hWF'
    rw [List.map_cons, List.nodup_cons] at hWF'
    obtain ⟨hnot, hnd⟩ := hWF'
    have step : mergeLayer acc (p :: rest) = mergeLayer (acc.set p.1 p.2) rest := rfl
    have hset : acc.set p.1 p.2 = acc ++ [p] := by
      have := Fields.set_of_not_mem acc p.1 p.2
        (fun q hq => hdisj p (List.mem_cons_self p rest) q hq)
      simpa using this
    rw [step, hset, ih hnd]
    · simp
    · intro p' hp' q hq
      rcases List.mem_append.mp hq with hq | hq
      · exact hdisj p' (List.mem_cons_of_mem p hp') q hq
      · have : q = p := by simpa using hq
        subst this
        intro heq
        exact hnot (heq ▸ List.mem_map_of_mem Prod.fst hp')

theorem mergeLayer_nil_of_WF (m : Fields) (hWF : m.WF) : mergeLayer [] m = m := by
  have := mergeLayer_disjoint m hWF [] (by intro p _ q hq; simp at hq)
  simpa using this

theorem chainLookup_all_none (chain : List Fields) (k : String)
    (h : ∀ layer ∈ chain, Fields.Get layer k = none) : chainLookup chain k = none := by
  induction chain with
  | nil => rfl
  | cons layer rest ih =>
    have hrest := ih (fun f hf => h f (List.mem_cons_of_mem layer hf))
    simp [chainLookup, hrest, h layer (List.mem_cons_self layer rest)]

theorem chainLookup_append_singleton (chain : List Fields) (f : Fields) (k : String) :
    chainLookup (chain ++ [f]) k
      = match Fields.Get f k with
        | some v => some v
        | none => chainLookup chain k := by
  induction chain with
  | nil =>
    show chainLookup [f] k = _
    simp [chainLookup]
    cases Fields.Get f k with
    | some v => rfl
    | none => rfl
  | cons layer rest ih =>
    show (match chainLookup (rest ++ [f]) k with
      | some v => some v
      | none => Fields.Get layer k) = _
    rw [ih]
    cases hf : Fields.Get f k with
    | some v => rfl
    | none =>
      show (match chainLookup rest k with
        | some v => some v
        | none => Fields.Get layer k) = _
      rfl

theorem mergedFields_stamp (e : Entry) (t : Int) :
    (stamp e t).mergedFields = e.mergedFields := rfl

theorem stamp_eq (e : Entry) (t : Int) :
    stamp e t = { e with Timestamp := t, Fields := e.mergedFields } := rfl

theorem dispatchLoop_nil (beh : HandlerId → Entry → Option String)
    (clock : Nat → Int) (e : Entry) (i : Nat) :
    dispatchLoop beh clock e [] i = ⟨[], []⟩ := rfl

theorem dispatchLoop_cons_calls (beh : HandlerId → Entry → Option String)
    (clock : Nat → Int) (e : Entry) (h : HandlerId) (rest : List HandlerId) (i : Nat) :
    (dispatchLoop beh clock e (h :: rest) i).calls
      = (h, stamp e (clock i))
        :: (dispatchLoop beh clock (stamp e (clock i)) rest (i + 1)).calls := rfl

theorem dispatchLoop_cons_sink (beh : HandlerId → Entry → Option String)
    (clock : Nat → Int) (e : Entry) (h : HandlerId) (rest : List HandlerId) (i : Nat) :
    (dispatchLoop beh clock e (h :: rest) i).sink
      = match beh h (stamp e (clock i)) with
        | none => (dispatchLoop beh clock (stamp e (clock i)) rest (i + 1)).sink
        | some err =>
          ("log: log failed: " ++ err)
            :: (dispatchLoop beh clock (stamp e (clock i)) rest (i + 1)).sink := rfl

theorem dispatchLoop_calls_fst (beh : HandlerId → Entry → Option String)
    (clock : Nat → Int) (hs : List HandlerId) :
    ∀ (e : Entry) (i : Nat),
      (dispatchLoop beh clock e hs i).calls.map Prod.fst = hs := by
  induction hs with
  | nil => intro e i; rfl
  | cons h rest ih =>
    intro e i
    rw [dispatchLoop_cons_calls, List.map_cons, ih]

theorem stamp_stamp (e : Entry) (t t' : Int) :
    stamp (stamp e t) t' = stamp e t' := rfl

theorem dispatchLoop_calls_getElem? (beh : HandlerId → Entry → Option String)
    (clock : Nat → Int) (hs : List HandlerId) :
    ∀ (e : Entry) (i k : Nat),
      (dispatchLoop beh clock e hs i).calls[k]?
        = (hs[k]?).map (fun hid => (hid, stamp e (clock (i + k)))) := by
  induction hs with
  | nil => intro e i k; simp [dispatchLoop_nil]
  | cons h rest ih =>
    intro e i k
    rw [dispatchLoop_cons_calls]
    cases k with
    | zero => simp
    | succ k' =>
      rw [List.getElem?_cons_succ, ih, List.getElem?_cons_succ]
      have harith : i + 1 + k' = i + (k' + 1) := by omega
      rw [harith, stamp_stamp]

theorem dispatchLoop_sink_mem (beh : HandlerId → Entry → Option String)
    (clock : Nat → Int) (hs : List HandlerId) :
    ∀ (e : Entry) (i k : Nat) (hid : HandlerId) (err : String),
      hs[k]? = some hid →
      beh hid (stamp e (clock (i + k))) = some err →
      ("log: log failed: " ++ err) ∈ (dispatchLoop beh clock e hs i).sink := by
  induction hs with
  | nil => intro e i k hid err hget; simp at hget
  | cons h rest ih =>
    intro e i k hid err hget hfail
    rw [dispatchLoop_cons_sink]
    cases k with
    | zero =>
      simp at hget
      subst hget
      rw [Nat.add_zero] at hfail
      rw [hfail]
      exact List.mem_cons_self _ _
    | succ k' =>
      rw [List.getElem?_cons_succ] at hget
      have harith : i + (k' + 1) = i + 1 + k' := by omega
      rw [harith, ← stamp_stamp e (clock i)] at hfail
      have hmem := ih (stamp e (clock i)) (i + 1) k' hid err hget hfail
      cases beh h (stamp e (clock i)) with
      | none => exact hmem
      | some err' => exact List.mem_cons_of_mem _ hmem

theorem dispatchLoop_calls_mem (beh : HandlerId → Entry → Option String)
    (clock : Nat → Int) (hs : List HandlerId) :
    ∀ (e : Entry) (i : Nat) (c : HandlerId × Entry),
      c ∈ (dispatchLoop beh clock e hs i).calls →
      c.2.Level = e.Level ∧ c.2.Message = e.Message ∧
        c.2.fields = e.fields ∧ c.2.Fields = e.mergedFields := by
  induction hs with
  | nil => intro e i c hc; simp [dispatchLoop_nil] at hc
  | cons h rest ih =>
    intro e i c hc
    rw [dispatchLoop_cons_calls] at hc
    rcases List.mem_cons.mp hc with hc | hc
    · subst hc
      exact ⟨rfl, rfl, rfl, rfl⟩
    · have := ih (stamp e (clock i)) (i + 1) c hc
      simpa [stamp, Entry.mergedFields] using this

theorem mem_foldl_addLevels (h : HandlerId) (levels : List Level) :
    ∀ (m : Level → List HandlerId) (x : HandlerId) (L : Level),
      x ∈ (levels.foldl (fun m lv => fun y => if y = lv then m y ++ [h] else m y) m) L
        ↔ x ∈ m L ∨ (x = h ∧ L ∈ levels) := by
  induction levels with
  | nil => intro m x L; simp
  | cons lv rest ih =>
    intro m x L
    rw [List.foldl_cons, ih]
    by_cases hL : L = lv
    · subst hL
      simp [List.mem_append]
      try tauto
    · simp [hL]
      try tauto

theorem RegisterHandler_leveledHandlers_mem (l : Logger) (h : HandlerId)
    (levels : List Level) (x : HandlerId) (L : Level) :
    x ∈ (RegisterHandler l h levels).leveledHandlers L
      ↔ x ∈ l.leveledHandlers L ∨ (x = h ∧ L ∈ levels) := by
  unfold RegisterHandler
  exact mem_foldl_addLevels h levels l.leveledHandlers x L

theorem applyRegs_leveledHandlers_mem (regs : List (HandlerId × List Level)) :
    ∀ (l : Logger) (x : HandlerId) (L : Level),
      x ∈ (applyRegs regs l).leveledHandlers L
        ↔ x ∈ l.leveledHandlers L ∨ ∃ r ∈ regs, r.1 = x ∧ L ∈ r.2 := by
  induction regs with
  | nil => intro l x L; simp [applyRegs]
  | cons r rest ih =>
    intro l x L
    have hstep : applyRegs (r :: rest) l = applyRegs rest (RegisterHandler l r.1 r.2) := rfl
    rw [hstep, ih, RegisterHandler_leveledHandlers_mem]
    constructor
    · rintro ((hm | ⟨rfl, hmem⟩) | ⟨r', hr', rfl, hmem⟩)
      · exact Or.inl hm
      · exact Or.inr ⟨r, List.mem_cons_self r rest, rfl, hmem⟩
      · exact Or.inr ⟨r', List.mem_cons_of_mem r hr', rfl, hmem⟩
    · rintro (hm | ⟨r', hr', rfl, hmem⟩)
      · exact Or.inl (Or.inl hm)
      · rcases List.mem_cons.mp hr' with rfl | hr'
        · exact Or.inl (Or.inr ⟨rfl, hmem⟩)
        · exact Or.inr ⟨r', hr', rfl, hmem⟩

theorem RegisterHandler_cache (l : Logger)
    (h : HandlerId) (levels : List Level) :
    (RegisterHandler l h levels).cacheLeveledHandlers
      = getLeveledHandlers (RegisterHandler l h levels).leveledHandlers := rfl

theorem applyRegs_cache (regs : List (HandlerId × List Level)) :
    ∀ (l : Logger),
      l.cacheLeveledHandlers = getLeveledHandlers l.leveledHandlers →
      (applyRegs regs l).cacheLeveledHandlers
        = getLeveledHandlers (applyRegs regs l).leveledHandlers := by
  induction regs with
  | nil => intro l hl; exact hl
  | cons r rest ih =>
    intro l _
    have hstep : applyRegs (r :: rest) l = applyRegs rest (RegisterHandler l r.1 r.2) := rfl
    rw [hstep]
    exact ih (RegisterHandler l r.1 r.2) (RegisterHandler_cache l r.1 r.2)

theorem lookup_getLeveledHandlers_of_defined (m : Level → List HandlerId)
    (L : Level) (hL : L ∈ AllLevels) :
    (getLeveledHandlers m).lookup L = m L := by
  simp [AllLevels] at hL
  rcases hL with rfl | rfl | rfl | rfl | rfl | rfl <;>
    simp [Snapshot.lookup, getLeveledHandlers, DebugLevel, InfoLevel, WarnLevel,
      ErrorLevel, PanicLevel, FatalLevel]

theorem lookup_of_undefined (s : Snapshot) (L : Level) (hL : L ∉ AllLevels) :
    s.lookup L = [] := by
  simp [AllLevels] at hL
  obtain ⟨h0, h1, h2, h3, h4, h5⟩ := hL
  simp [Snapshot.lookup, h0, h1, h2, h3, h4, h5]

theorem handler_calls_fst (beh : HandlerId → Entry → Option String)
    (clock : Nat → Int) (e : Entry) :
    (handler beh clock e).calls.map Prod.fst
      = e.logger.cacheLeveledHandlers.lookup e.Level :=
  dispatchLoop_calls_fst beh clock _ e 0

theorem mergedFields_withField_Get (e : Entry) (k : String) (v : Value) :
    (e.WithField k v).mergedFields.Get k = some v := by
  have h1 : (e.WithField k v).mergedFields = mergeLayer e.mergedFields [(k, v)] := by
    show ((e.fields ++ [[(k, v)]]).foldl mergeLayer []) = _
    rw [List.foldl_append]
    rfl
  rw [h1]
  show (e.mergedFields.set k v).Get k = some v
  rw [Fields.Get_set]
  simp

/-- C2: flattening a field chain via `mergedFields` has last-writer-wins
semantics per key (the value bound to a key is the one from the latest
layer containing it, for chains of any length), the result is again a
well-formed map, flattening is idempotent (merging the flattened map as a
single layer reproduces it), and in particular
`WithFields({"a":1}).WithFields({"a":2})` merges to `a = 2`. -/
theorem mergedFields_last_writer_wins (e : Entry)
    (hWF : ∀ f ∈ e.fields, f.WF) :
    (∀ k, e.mergedFields.Get k = chainLookup e.fields k) ∧
    e.mergedFields.WF ∧
    ((newEntry Logger.new).WithFields e.mergedFields).mergedFields = e.mergedFields ∧
    (((newEntry Logger.new).WithFields [("a", Value.vInt 1)]).WithFields
        [("a", Value.vInt 2)]).mergedFields.Get "a" = some (Value.vInt 2) := by
  have hWFnil : Fields.WF [] := by simp [Fields.WF]
  have hmergedWF : e.mergedFields.WF := foldl_mergeLayer_WF e.fields [] hWFnil
  refine ⟨?_, hmergedWF, ?_, by decide⟩
  · intro k
    have h := foldl_mergeLayer_Get e.fields hWF [] k
    show (e.fields.foldl mergeLayer []).Get k = chainLookup e.fields k
    rw [h]
    cases chainLookup e.fields k <;> simp [Fields.Get_nil]
  · have h2 : ((newEntry Logger.new).WithFields e.mergedFields).mergedFields
        = mergeLayer [] e.mergedFields := rfl
    rw [h2, mergeLayer_nil_of_WF _ hmergedWF]

/-- Witness for C2 at a concrete two-layer chain. -/
theorem mergedFields_last_writer_wins_witness :
    (((newEntry Logger.new).WithFields
        [("a", Value.vInt 1), ("b", Value.vStr "x")]).WithFields
        [("a", Value.vInt 2)]).mergedFields.Get "a"
      = chainLookup (((newEntry Logger.new).WithFields
        [("a", Value.vInt 1), ("b", Value.vStr "x")]).WithFields
        [("a", Value.vInt 2)]).fields "a" :=
  (mergedFields_last_writer_wins
    (((newEntry Logger.new).WithFields
        [("a", Value.vInt 1), ("b", Value.vStr "x")]).WithFields
        [("a", Value.vInt 2)]) (by decide)).1 "a"

/-- C5: every field-adding operation is copy-on-append: the result carries
the receiver's chain plus one extra layer while every other component of
the receiver is preserved, the merged fields of the result are the
receiver's merged fields overlaid with the new layer, each typed helper
(`WithField`, `Str`, `Bool`, the integer widths, the floats) reduces to
`WithFields` of a one-binding layer, and `WithError` adds the "error"
field exactly when the error is non-nil. -/
theorem withFields_copy_on_append (e : Entry) (fields : Fields) (k : String)
    (v : Value) (s : String) (b : Bool) (n : Int) (w32 : UInt32) (w64 : UInt64)
    (err : String) :
    (e.WithFields fields).fields = e.fields ++ [fields] ∧
    (e.WithFields fields).logger = e.logger ∧
    (e.WithFields fields).Level = e.Level ∧
    (e.WithFields fields).Message = e.Message ∧
    (e.WithFields fields).start = e.start ∧
    (e.WithFields fields).Timestamp = e.Timestamp ∧
    (e.WithFields fields).mergedFields = mergeLayer e.mergedFields fields ∧
    e.WithField k v = e.WithFields [(k, v)] ∧
    e.Str k s = e.WithFields [(k, Value.vStr s)] ∧
    e.Bool k b = e.WithFields [(k, Value.vBool b)] ∧
    e.Int k n = e.WithFields [(k, Value.vInt n)] ∧
    e.Int8 k n = e.WithFields [(k, Value.vInt n)] ∧
    e.Int16 k n = e.WithFields [(k, Value.vInt n)] ∧
    e.Int32 k n = e.WithFields [(k, Value.vInt n)] ∧
    e.Int64 k n = e.WithFields [(k, Value.vInt n)] ∧
    e.Uint k n = e.WithFields [(k, Value.vInt n)] ∧
    e.Uint8 k n = e.WithFields [(k, Value.vInt n)] ∧
    e.Uint16 k n = e.WithFields [(k, Value.vInt n)] ∧
    e.Uint32 k n = e.WithFields [(k, Value.vInt n)] ∧
    e.Uint64 k n = e.WithFields [(k, Value.vInt n)] ∧
    e.Float32 k w32 = e.WithFields [(k, Value.vFloat32 w32)] ∧
    e.Float64 k w64 = e.WithFields [(k, Value.vFloat64 w64)] ∧
    e.WithError none = e ∧
    e.WithError (some err) = e.WithFields [("error", Value.vStr err)] := by
  refine ⟨rfl, rfl, rfl, rfl, rfl, rfl, ?_, rfl, rfl, rfl, rfl, rfl, rfl, rfl,
    rfl, rfl, rfl, rfl, rfl, rfl, rfl, rfl, rfl, rfl⟩
  show ((e.fields ++ [fields]).foldl mergeLayer []) = _
  rw [List.foldl_append]
  rfl

/-- C4: `WithDefaultFields` only appends a layer to the process-wide list;
an entry created afterwards carries (and, for an unshadowed key, exposes in
its merged fields) the new layer, while an entry created beforehand
carries exactly the old list and its merged fields do not contain the new
layer's keys. -/
theorem defaultFields_monotonic_no_retroactivity (l : Logger) (f : Fields)
    (k : String) (v : Value) (hWFf : f.WF) (hv : f.Get k = some v)
    (hWFold : ∀ layer ∈ l.defaultFields, layer.WF)
    (hOld : ∀ layer ∈ l.defaultFields, Fields.Get layer k = none) :
    (WithDefaultFields l f).defaultFields = l.defaultFields ++ [f] ∧
    (newEntry (WithDefaultFields l f)).fields = l.defaultFields ++ [f] ∧
    (newEntry l).fields = l.defaultFields ∧
    (newEntry (WithDefaultFields l f)).mergedFields.Get k = some v ∧
    (newEntry l).mergedFields.Get k = none := by
  refine ⟨rfl, rfl, rfl, ?_, ?_⟩
  · have hWFall : ∀ g ∈ l.defaultFields ++ [f], g.WF := by
      intro g hg
      rcases List.mem_append.mp hg with hg | hg
      · exact hWFold g hg
      · have : g = f := by simpa using hg
        subst this
        exact hWFf
    have h := foldl_mergeLayer_Get (l.defaultFields ++ [f]) hWFall [] k
    have hchain : chainLookup (l.defaultFields ++ [f]) k = some v := by
      rw [chainLookup_append_singleton, hv]
    show ((l.defaultFields ++ [f]).foldl mergeLayer []).Get k = some v
    rw [h, hchain]
  · have h := foldl_mergeLayer_Get l.defaultFields hWFold [] k
    have hchain : chainLookup l.defaultFields k = none :=
      chainLookup_all_none l.defaultFields k hOld
    show (l.defaultFields.foldl mergeLayer []).Get k = none
    rw [h, hchain]
    rfl

/-- Witness for C4: one default layer before, one added after. -/
theorem defaultFields_monotonic_no_retroactivity_witness :
    (newEntry (WithDefaultFields
        (WithDefaultFields Logger.new [("app", Value.vStr "santa")])
        [("env", Value.vStr "dev")])).mergedFields.Get "env"
      = some (Value.vStr "dev") ∧
    (newEntry (WithDefaultFields Logger.new
        [("app", Value.vStr "santa")])).mergedFields.Get "env" = none :=
  ⟨(defaultFields_monotonic_no_retroactivity
      (WithDefaultFields Logger.new [("app", Value.vStr "santa")])
      [("env", Value.vStr "dev")] "env" (Value.vStr "dev")
      (by decide) (by decide) (by decide) (by decide)).2.2.2.1,
   (defaultFields_monotonic_no_retroactivity
      (WithDefaultFields Logger.new [("app", Value.vStr "santa")])
      [("env", Value.vStr "dev")] "env" (Value.vStr "dev")
      (by decide) (by decide) (by decide) (by decide)).2.2.2.2⟩

theorem dispatchLoop_calls_indep (beh beh' : HandlerId → Entry → Option String)
    (clock : Nat → Int) (hs : List HandlerId) :
    ∀ (e : Entry) (i : Nat),
      (dispatchLoop beh clock e hs i).calls = (dispatchLoop beh' clock e hs i).calls := by
  induction hs with
  | nil => intro e i; rfl
  | cons h rest ih =>
    intro e i
    rw [dispatchLoop_cons_calls, dispatchLoop_cons_calls, ih]

/-- C1: for a logger built by any sequence of registrations in which `x` is
registered for level `L` (one of the six defined levels) and for no other
level, dispatching any entry finalized at level `L` invokes `x`'s `Log`,
and dispatching an entry finalized at any other level never invokes it. -/
theorem single_level_registration_routing
    (regs : List (HandlerId × List Level)) (x : HandlerId) (L : Level)
    (hdef : L ∈ AllLevels)
    (hreg : ∃ r ∈ regs, r.1 = x ∧ L ∈ r.2)
    (honly : ∀ r ∈ regs, r.1 = x → ∀ L' ∈ r.2, L' = L)
    (beh : HandlerId → Entry → Option String) (clock : Nat → Int) (e : Entry)
    (hlog : e.logger = applyRegs regs Logger.new) :
    (e.Level = L → x ∈ (handler beh clock e).calls.map Prod.fst) ∧
    (e.Level ≠ L → x ∉ (handler beh clock e).calls.map Prod.fst) := by
  have hcache : (applyRegs regs Logger.new).cacheLeveledHandlers
      = getLeveledHandlers (applyRegs regs Logger.new).leveledHandlers :=
    applyRegs_cache regs Logger.new rfl
  have hfst := handler_calls_fst beh clock e
  rw [hlog, hcache] at hfst
  constructor
  · intro hL
    rw [hfst, hL, lookup_getLeveledHandlers_of_defined _ L hdef,
      applyRegs_leveledHandlers_mem]
    exact Or.inr hreg
  · intro hne hmem
    rw [hfst] at hmem
    by_cases hLdef : e.Level ∈ AllLevels
    · rw [lookup_getLeveledHandlers_of_defined _ _ hLdef,
        applyRegs_leveledHandlers_mem] at hmem
      rcases hmem with hm | ⟨r, hr, hrx, hre⟩
      · simp [Logger.new] at hm
      · exact hne (honly r hr hrx e.Level hre)
    · rw [lookup_of_undefined _ _ hLdef] at hmem
      simp at hmem

/-- Witness for C1: handler 7 registered for Info only (alongside handler 9
on Error) is invoked for an Info entry and not for a Debug entry. -/
theorem single_level_registration_routing_witness :
    7 ∈ (handler (fun _ _ => none) (fun _ => (0 : Int))
        { newEntry (applyRegs [(7, [InfoLevel]), (9, [ErrorLevel])] Logger.new)
          with Level := InfoLevel }).calls.map Prod.fst ∧
    7 ∉ (handler (fun _ _ => none) (fun _ => (0 : Int))
        { newEntry (applyRegs [(7, [InfoLevel]), (9, [ErrorLevel])] Logger.new)
          with Level := DebugLevel }).calls.map Prod.fst :=
  ⟨(single_level_registration_routing [(7, [InfoLevel]), (9, [ErrorLevel])] 7 InfoLevel
      (by decide) (by decide) (by decide) (fun _ _ => none) (fun _ => (0 : Int))
      { newEntry (applyRegs [(7, [InfoLevel]), (9, [ErrorLevel])] Logger.new)
        with Level := InfoLevel } rfl).1 rfl,
   (single_level_registration_routing [(7, [InfoLevel]), (9, [ErrorLevel])] 7 InfoLevel
      (by decide) (by decide) (by decide) (fun _ _ => none) (fun _ => (0 : Int))
      { newEntry (applyRegs [(7, [InfoLevel]), (9, [ErrorLevel])] Logger.new)
        with Level := DebugLevel } rfl).2 (by decide)⟩

/-- C3: when the handler at position `k` of the resolved list fails, the
dispatcher still invokes every resolved handler in order (the invocation
sequence does not depend on any handler's result), records the failure on
the fallback sink, and the dispatch function returns its result normally
(it is total and propagates nothing). -/
theorem handler_failure_no_skip
    (beh beh' : HandlerId → Entry → Option String) (clock : Nat → Int)
    (e : Entry) (k : Nat) (hid : HandlerId) (err : String)
    (hk : (e.logger.cacheLeveledHandlers.lookup e.Level)[k]? = some hid)
    (hfail : beh hid { e with Timestamp := clock k, Fields := e.mergedFields }
      = some err) :
    (handler beh clock e).calls.map Prod.fst
        = e.logger.cacheLeveledHandlers.lookup e.Level ∧
    ("log: log failed: " ++ err) ∈ (handler beh clock e).sink ∧
    (handler beh clock e).calls = (handler beh' clock e).calls := by
  refine ⟨handler_calls_fst beh clock e, ?_, ?_⟩
  · exact dispatchLoop_sink_mem beh clock _ e 0 k hid err hk
      (by rw [Nat.zero_add, stamp_eq]; exact hfail)
  · exact dispatchLoop_calls_indep beh beh' clock _ e 0

/-- Witness for C3: two handlers on Error, the second one failing. -/
theorem handler_failure_no_skip_witness :
    (handler (fun h _ => if h = 2 then some "boom" else none) (fun _ => (0 : Int))
        { newEntry (applyRegs [(1, [ErrorLevel]), (2, [ErrorLevel])] Logger.new)
          with Level := ErrorLevel }).calls.map Prod.fst
      = ({ newEntry (applyRegs [(1, [ErrorLevel]), (2, [ErrorLevel])] Logger.new)
          with Level := ErrorLevel
         } : Entry).logger.cacheLeveledHandlers.lookup ErrorLevel ∧
    ("log: log failed: " ++ "boom")
      ∈ (handler (fun h _ => if h = 2 then some "boom" else none) (fun _ => (0 : Int))
        { newEntry (applyRegs [(1, [ErrorLevel]), (2, [ErrorLevel])] Logger.new)
          with Level := ErrorLevel }).sink ∧
    (handler (fun h _ => if h = 2 then some "boom" else none) (fun _ => (0 : Int))
        { newEntry (applyRegs [(1, [ErrorLevel]), (2, [ErrorLevel])] Logger.new)
          with Level := ErrorLevel }).calls
      = (handler (fun _ _ => none) (fun _ => (0 : Int))
        { newEntry (applyRegs [(1, [ErrorLevel]), (2, [ErrorLevel])] Logger.new)
          with Level := ErrorLevel }).calls :=
  handler_failure_no_skip (fun h _ => if h = 2 then some "boom" else none)
    (fun _ _ => none) (fun _ => (0 : Int))
    { newEntry (applyRegs [(1, [ErrorLevel]), (2, [ErrorLevel])] Logger.new)
      with Level := ErrorLevel } 1 2 "boom" (by decide) rfl

/-- C9: the `k`-th invocation of a dispatch receives the entry stamped with
the `k`-th clock instant (each handler observes its own timestamp) and
with the fields freshly merged from the chain. -/
theorem per_handler_stamp (beh : HandlerId → Entry → Option String)
    (clock : Nat → Int) (e : Entry) (k : Nat) (hid : HandlerId)
    (hk : (e.logger.cacheLeveledHandlers.lookup e.Level)[k]? = some hid) :
    (handler beh clock e).calls[k]?
      = some (hid, { e with Timestamp := clock k, Fields := e.mergedFields }) := by
  have h := dispatchLoop_calls_getElem? beh clock
    (e.logger.cacheLeveledHandlers.lookup e.Level) e 0 k
  show (dispatchLoop beh clock e (e.logger.cacheLeveledHandlers.lookup e.Level) 0).calls[k]?
      = some (hid, { e with Timestamp := clock k, Fields := e.mergedFields })
  rw [h, hk, Nat.zero_add, Option.map_some', stamp_eq]

/-- Witness for C9: with two Error handlers and the clock stream `i ↦ i`,
the second invocation carries timestamp 1. -/
theorem per_handler_stamp_witness :
    (handler (fun _ _ => none) (fun i => (i : Int))
        { newEntry (applyRegs [(1, [ErrorLevel]), (2, [ErrorLevel])] Logger.new)
          with Level := ErrorLevel }).calls[1]?
      = some (2, { ({ newEntry (applyRegs [(1, [ErrorLevel]), (2, [ErrorLevel])] Logger.new)
            with Level := ErrorLevel } : Entry)
          with Timestamp := ((1 : Nat) : Int)
               Fields := ({ newEntry (applyRegs [(1, [ErrorLevel]), (2, [ErrorLevel])] Logger.new)
                 with Level := ErrorLevel } : Entry).mergedFields }) :=
  per_handler_stamp (fun _ _ => none) (fun i => (i : Int))
    { newEntry (applyRegs [(1, [ErrorLevel]), (2, [ErrorLevel])] Logger.new)
      with Level := ErrorLevel } 1 2 (by decide)

/-- C10: the cached snapshot's lookup returns the empty handler list for
every level value outside the six defined ones, so dispatching an entry at
such a level performs zero invocations and writes nothing to the sink. -/
theorem unknown_level_no_dispatch (L : Level) (hL : L ∉ AllLevels)
    (beh : HandlerId → Entry → Option String) (clock : Nat → Int)
    (e : Entry) (he : e.Level = L) :
    e.logger.cacheLeveledHandlers.lookup L = [] ∧
    (handler beh clock e).calls = [] ∧ (handler beh clock e).sink = [] := by
  have hlookup := lookup_of_undefined e.logger.cacheLeveledHandlers L hL
  refine ⟨hlookup, ?_, ?_⟩
  · show (dispatchLoop beh clock e
      (e.logger.cacheLeveledHandlers.lookup e.Level) 0).calls = []
    rw [he, hlookup]
    rfl
  · show (dispatchLoop beh clock e
      (e.logger.cacheLeveledHandlers.lookup e.Level) 0).sink = []
    rw [he, hlookup]
    rfl

/-- Witness for C10 at level 6 (one past Fatal). -/
theorem unknown_level_no_dispatch_witness :
    ({ newEntry Logger.new with Level := 6 } : Entry).logger.cacheLeveledHandlers.lookup 6
        = [] ∧
    (handler (fun _ _ => none) (fun _ => (0 : Int))
        { newEntry Logger.new with Level := 6 }).calls = [] ∧
    (handler (fun _ _ => none) (fun _ => (0 : Int))
        { newEntry Logger.new with Level := 6 }).sink = [] :=
  unknown_level_no_dispatch 6 (by decide) (fun _ _ => none) (fun _ => (0 : Int))
    { newEntry Logger.new with Level := 6 } rfl

/-- C6: `Trace` stores the message and start instant without dispatching
(the entry's chain and level are untouched), and `Stop` dispatches exactly
one entry, at Info level, whose message is the traced message and whose
merged fields bind "duration" to the formatted elapsed time since the
recorded start. -/
theorem trace_stop_info_duration (l : Logger) (msg : String) (t0 now : Int)
    (fmtD : Int → String) (beh : HandlerId → Entry → Option String)
    (clock : Nat → Int) :
    ((newEntry l).Trace msg t0).Message = msg ∧
    ((newEntry l).Trace msg t0).start = t0 ∧
    ((newEntry l).Trace msg t0).fields = l.defaultFields ∧
    ((newEntry l).Trace msg t0).Level = (newEntry l).Level ∧
    (((newEntry l).Trace msg t0).Stop fmtD beh clock now).calls.map Prod.fst
        = l.cacheLeveledHandlers.lookup InfoLevel ∧
    (∀ c ∈ (((newEntry l).Trace msg t0).Stop fmtD beh clock now).calls,
        c.2.Level = InfoLevel ∧ c.2.Message = msg ∧
        c.2.Fields.Get "duration"
          = some (Value.vStr (duration fmtD (now - t0)))) := by
  refine ⟨rfl, rfl, rfl, rfl, ?_, ?_⟩
  · exact handler_calls_fst beh clock _
  · intro c hc
    have h := dispatchLoop_calls_mem beh clock _ _ 0 c hc
    refine ⟨h.1, h.2.1, ?_⟩
    rw [h.2.2.2]
    exact mergedFields_withField_Get ((newEntry l).Trace msg t0) "duration"
      (Value.vStr (duration fmtD (now - t0)))

/-- C7: `duration` renders a sub-day duration with the standard compact
formatter unchanged, and a duration of at least a day as
`<years>y<days>d<remainder>`: the year count `d / year` is emitted only
when nonzero, the day count is the whole days of the remainder after
removing the years, and the sub-day remainder (nonnegative, smaller than a
day) is rendered with the standard compact formatter. -/
theorem duration_format (fmtD : Int → String) (d : Int) :
    (d < day → duration fmtD d = fmtD d) ∧
    (day ≤ d →
      duration fmtD d
        = (if d / year = 0 then "" else toString (d / year) ++ "y")
            ++ toString ((d % year) / day) ++ "d" ++ fmtD (d % year % day) ∧
      0 ≤ d % year % day ∧ d % year % day < day) := by
  have hdayval : day = 86400000000000 := rfl
  have hyearval : year = 31536000000000000 := by norm_num [year, day]
  constructor
  · intro h
    simp only [duration, h, if_true]
  · intro h
    have hnot : ¬ d < day := not_lt.mpr h
    have h' := h
    rw [hdayval] at h'
    refine ⟨?_, ?_, ?_⟩
    · by_cases hy : year ≤ d
      · have hy' := hy
        rw [hyearval] at hy'
        have hy0 : ¬ d / year = 0 := by rw [hyearval]; omega
        have h1 : d - d / year * year = d % year := by rw [hyearval]; omega
        have h2 : d % year - d % year / day * day = d % year % day := by
          rw [hyearval, hdayval]; omega
        simp only [duration, hnot, if_false, hy, if_true, hy0, h1, h2]
      · have hy' := hy
        rw [hyearval] at hy'
        have hy0 : d / year = 0 := by rw [hyearval]; omega
        have h1 : d % year = d := by rw [hyearval]; omega
        have h2 : d - d / day * day = d % day := by rw [hdayval]; omega
        simp only [duration, hnot, if_false, hy, hy0, if_true, h1, h2]
    · rw [hyearval, hdayval]; omega
    · rw [hyearval, hdayval]; omega

/-- Witness for C7 at 25 hours: no year prefix, one day, one hour left. -/
theorem duration_format_witness :
    duration (fun n => toString n) 90000000000000
      = (if (90000000000000 : Int) / year = 0 then ""
         else toString ((90000000000000 : Int) / year) ++ "y")
          ++ toString (((90000000000000 : Int) % year) / day) ++ "d"
          ++ (fun n => toString n) ((90000000000000 : Int) % year % day) :=
  ((duration_format (fun n => toString n) 90000000000000).2 (by norm_num [day])).1

theorem flushLoop_spec (flushCap : HandlerId → Option (Option String))
    (hs : List HandlerId) :
    (flushLoop flushCap hs).flushCalls
        = hs.filter (fun h => (flushCap h).isSome) ∧
    (flushLoop flushCap hs).sink
        = hs.filterMap (fun h =>
            match flushCap h with
            | some (some err) => some ("log: flush log handler: " ++ err)
            | _ => none) := by
  induction hs with
  | nil => exact ⟨rfl, rfl⟩
  | cons h rest ih =>
    obtain ⟨ih1, ih2⟩ := ih
    cases hc : flushCap h with
    | none =>
      constructor <;>
        simp [flushLoop, hc, ih1, ih2, List.filter_cons, List.filterMap_cons]
    | some r =>
      cases r with
      | none =>
        constructor <;>
          simp [flushLoop, hc, ih1, ih2, List.filter_cons, List.filterMap_cons]
      | some err =>
        constructor <;>
          simp [flushLoop, hc, ih1, ih2, List.filter_cons, List.filterMap_cons]

/-- C8: one `Flush()` call invokes the flush capability exactly on the
handlers of the flat list that expose it, once per list entry and in
registration order (the invocation list is the filtered flat list,
independent of any failure), records each failure on the fallback sink,
and returns normally. -/
theorem Flush_best_effort (l : Logger)
    (flushCap : HandlerId → Option (Option String)) :
    (Flush l flushCap).flushCalls
        = l.handles.filter (fun h => (flushCap h).isSome) ∧
    (Flush l flushCap).sink
        = l.handles.filterMap (fun h =>
            match flushCap h with
            | some (some err) => some ("log: flush log handler: " ++ err)
            | _ => none) :=
  flushLoop_spec flushCap l.handles

/-- Witness for C6: one Info handler, a trace of one hour. -/
theorem trace_stop_info_duration_witness :
    ∃ c ∈ (((newEntry (applyRegs [(5, [InfoLevel])] Logger.new)).Trace "task" 0).Stop
        (fun n => toString n) (fun _ _ => none) (fun _ => (0 : Int))
        3600000000000).calls,
      c.2.Level = InfoLevel ∧ c.2.Message = "task" ∧
      c.2.Fields.Get "duration"
        = some (Value.vStr (duration (fun n => toString n) (3600000000000 - 0))) := by
  have hne : (((newEntry (applyRegs [(5, [InfoLevel])] Logger.new)).Trace "task" 0).Stop
      (fun n => toString n) (fun _ _ => none) (fun _ => (0 : Int))
      3600000000000).calls.length = 1 := by
    have hfst := (trace_stop_info_duration (applyRegs [(5, [InfoLevel])] Logger.new)
      "task" 0 3600000000000 (fun n => toString n) (fun _ _ => none)
      (fun _ => (0 : Int))).2.2.2.2.1
    have hlen := congrArg List.length hfst
    rw [List.length_map] at hlen
    rw [hlen]
    decide
  have hpos : 0 < (((newEntry (applyRegs [(5, [InfoLevel])] Logger.new)).Trace
      "task" 0).Stop (fun n => toString n) (fun _ _ => none) (fun _ => (0 : Int))
      3600000000000).calls.length := by
    rw [hne]
    norm_num
  obtain ⟨c, hc⟩ := List.exists_mem_of_length_pos hpos
  exact ⟨c, hc,
    (trace_stop_info_duration (applyRegs [(5, [InfoLevel])] Logger.new)
      "task" 0 3600000000000 (fun n => toString n) (fun _ _ => none)
      (fun _ => (0 : Int))).2.2.2.2.2 c hc⟩
